import Mathlib

/-!
Shallow embedding of the extraDistr distribution kernels and vectorized
drivers, translated from the C++ sources under src/.

Modelling conventions, used consistently below:

* An R double is modelled as `Option ℝ`: `none` stands for the NaN / NA
  sentinel (the sources treat NA and NaN uniformly through `ISNAN`), and
  `some v` for a finite value.  The sources' `±Inf` doubles appear only in
  branches the verified properties never reach (`std::isinf` / `R_FINITE`
  guards); where such a branch is dropped from a definition, a comment at
  that definition says so.  The one driver whose post-processing genuinely
  produces `-Inf` values (`cpp_ppower`, which works in log space) is
  embedded with the dedicated four-point type `RVal` instead.
* C `pow` on doubles is modelled by `Real.rpow` (the `^` heterogeneous
  power on `ℝ`), C `log`/`exp` by `Real.log`/`Real.exp`.
* External primitives of the trusted numeric library (`R::dbinom`,
  `R::pbinom`, `R::qbinom`, `R::lgammafn`, `R::rbinom`, the uniform draw)
  are out of scope per the spec (§1) and are taken as explicit function
  parameters of the embedded kernels.
* A kernel that takes the mutable `bool& throw_warning` returns a
  `... × Bool` pair (the flag contribution of that call: the threaded flag
  of a driver loop is the disjunction of the per-call flags, since kernels
  only ever set it).  A kernel that calls `Rcpp::warning` directly returns
  a `... × ℕ` warning count (one count per raised warning), which a driver
  sums.
* Vectorized drivers work on `List (Option ℝ)` and mirror the source's
  recycling subscripts `v[i % length]` verbatim, including the places where
  the source indexes a vector by another vector's length.
-/

/-- An R double: `none` is the NaN/NA sentinel, `some v` a finite value. -/
abbrev RDouble := Option ℝ

/-- Modelled from the spec: `isInteger` of shared.h (shared.h is not under
src/); §4.3: "a query point must be a non-negative integer; non-integer or
negative queries yield 0".  A double is an integer iff it equals its floor. -/
def isInteger (x : ℝ) : Prop := (⌊x⌋ : ℝ) = x

/-- Recycled access `v[i % v.length]`, with the sentinel as the (never
reached, for nonempty `v`) default. -/
def rget (v : List RDouble) (i : ℕ) : RDouble := v.getD (i % v.length) none

open scoped Classical

/-! ## Kumaraswamy kernels (src/src/kumaraswamy-distribution.cpp) -/

/-- `cdf_kumar` (lines 43-56): NaN in → NaN out (the source returns
`x+a+b`, which is NaN) with no flag; `a<=0 || b<=0` → NaN with the warning
flag set; then the support clamps and the closed form `1-(1-x^a)^b`. -/
noncomputable def cdf_kumar (x a b : RDouble) : RDouble × Bool :=
  match x, a, b with
  | some x, some a, some b =>
    if a ≤ 0 ∨ b ≤ 0 then (none, true)
    else if x < 0 then (some 0, false)
    else if x ≥ 1 then (some 1, false)
    else (some (1 - (1 - x ^ a) ^ b), false)
  | _, _, _ => (none, false)

/-- `invcdf_kumar` (lines 58-67): NaN propagates flagless; invalid shape or
probability (`VALID_PROB`, modelled from the spec as membership in [0,1])
flags and returns NaN; else `pow(1-pow(1-p, 1/b), 1/a)`. -/
noncomputable def invcdf_kumar (p a b : RDouble) : RDouble × Bool :=
  match p, a, b with
  | some p, some a, some b =>
    if a ≤ 0 ∨ b ≤ 0 ∨ ¬(0 ≤ p ∧ p ≤ 1) then (none, true)
    else (some ((1 - (1 - p) ^ (1/b)) ^ (1/a)), false)
  | _, _, _ => (none, false)

/-- `rng_kumar` (lines 69-76): NaN or out-of-domain shape flags and yields
NA; otherwise the inverse-cdf transform of the uniform draw `u`. -/
noncomputable def rng_kumar (u : ℝ) (a b : RDouble) : RDouble × Bool :=
  match a, b with
  | some a, some b =>
    if a ≤ 0 ∨ b ≤ 0 then (none, true)
    else (some ((1 - u ^ (1/b)) ^ (1/a)), false)
  | _, _ => (none, true)

/-! ## Tukey-lambda kernels (src/src/tuckey-lambda-distribution.cpp) -/

/-- `invcdf_tlambda` (lines 24-35): on NaN input the source returns
`p+lambda` (NaN) without touching the flag; an invalid probability
(`VALID_PROB`, modelled from the spec as membership in [0,1]) sets the
flag; `lambda == 0` takes the explicit logistic branch `log(p)-log(1-p)`;
otherwise the general formula `(p^lambda-(1-p)^lambda)/lambda`. -/
noncomputable def invcdf_tlambda (p lambda : RDouble) : RDouble × Bool :=
  match p, lambda with
  | some p, some l =>
    if ¬(0 ≤ p ∧ p ≤ 1) then (none, true)
    else if l = 0 then (some (Real.log p - Real.log (1 - p)), false)
    else (some ((p ^ l - (1 - p) ^ l) / l), false)
  | _, _ => (none, false)

/-- `rng_tlambda` (lines 37-46): a NaN `lambda` sets the flag and yields
NA; otherwise the quantile formula applied to the uniform draw `u`. -/
noncomputable def rng_tlambda (u : ℝ) (lambda : RDouble) : RDouble × Bool :=
  match lambda with
  | none => (none, true)
  | some l =>
    if l = 0 then (some (Real.log u - Real.log (1 - u)), false)
    else (some ((u ^ l - (1 - u) ^ l) / l), false)

/-! ## Zero-inflated binomial kernels
(src/src/zero-inflated-binomial-distribution.cpp)

The binomial pmf/cdf/quantile primitives `R::dbinom`, `R::pbinom`,
`R::qbinom` are the trusted numeric library (spec §1) and are taken as
function parameters.  The sources' own domain guards in these kernels are
commented out in the C++, so no warning channel appears here. -/

/-- `pdf_zib` (lines 32-45): NaN propagates; negative or non-integer `x`
has zero mass (the `std::isinf(x)` disjunct of that test cannot fire on a
finite embedded value); `x = 0` carries the inflated mass
`pi + (1-pi)*(1-p)^n`; positive integers carry `(1-pi) * dbinom(x, n, p)`. -/
noncomputable def pdf_zib (dbinom : ℝ → ℝ → ℝ → ℝ) (x n p pi : RDouble) : RDouble :=
  match x, n, p, pi with
  | some x, some n, some p, some pi =>
    if x < 0 ∨ ¬isInteger x then some 0
    else if x = 0 then some (pi + (1 - pi) * (1 - p) ^ n)
    else some ((1 - pi) * dbinom x n p)
  | _, _, _, _ => none

/-- `cdf_zib` (lines 47-59): NaN propagates; `x < 0` → 0; else
`pi + (1-pi) * pbinom(x, n, p)` (the `std::isinf(x)` → 1 branch cannot
fire on a finite embedded value). -/
noncomputable def cdf_zib (pbinom : ℝ → ℝ → ℝ → ℝ) (x n p pi : RDouble) : RDouble :=
  match x, n, p, pi with
  | some x, some n, some p, some pi =>
    if x < 0 then some 0
    else some (pi + (1 - pi) * pbinom x n p)
  | _, _, _, _ => none

/-- `invcdf_zib` (lines 61-72): NaN propagates; `pp < pi` → 0; else the
binomial quantile at the rescaled probability `(pp - pi)/(1 - pi)`. -/
noncomputable def invcdf_zib (qbinom : ℝ → ℝ → ℝ → ℝ) (pp n p pi : RDouble) : RDouble :=
  match pp, n, p, pi with
  | some pp, some n, some p, some pi =>
    if pp < pi then some 0
    else some (qbinom ((pp - pi) / (1 - pi)) n p)
  | _, _, _, _ => none

/-! ## Power distribution (src/src/power-distribution.cpp)

`cpp_ppower` computes `logcdf_power` into its output buffer and then
applies the tail complement and the exponentiation to that buffer, so the
buffer's values live in log space and include `-Inf` (for `x <= 0`).  They
are embedded with the four-point double type `RVal`. -/

/-- A double that may be NaN, `-Inf`, `+Inf` or finite. -/
inductive RVal
  | NA
  | negInf
  | posInf
  | fin (v : ℝ)

/-- `logcdf_power` (lines 81-89): NaN propagates; `x <= 0` → `-Inf`;
`x >= alpha` → `log 1 = 0`; else `log(x)*beta - log(alpha)*beta`. -/
noncomputable def logcdf_power (x alpha beta : RDouble) : RVal :=
  match x, alpha, beta with
  | some x, some a, some b =>
    if x ≤ 0 then .negInf
    else if x ≥ a then .fin 0
    else .fin (Real.log x * b - Real.log a * b)
  | _, _, _ => .NA

/-- `cdf_power` (lines 44-52), the probability-space cdf of the same file:
NaN propagates; `x <= 0` → 0; `x >= alpha` → 1; else
`pow(x,beta)/pow(alpha,beta)`. -/
noncomputable def cdf_power (x alpha beta : RDouble) : RDouble :=
  match x, alpha, beta with
  | some x, some a, some b =>
    if x ≤ 0 then some 0
    else if x ≥ a then some 1
    else some (x ^ b / a ^ b)
  | _, _, _ => none

/-- The vectorized `p[i] = 1.0 - p[i]` step under IEEE double semantics. -/
noncomputable def rvalOneMinus : RVal → RVal
  | .NA => .NA
  | .negInf => .posInf
  | .posInf => .negInf
  | .fin v => .fin (1 - v)

/-- The vectorized `p[i] = exp(p[i])` step under IEEE double semantics. -/
noncomputable def rvalExp : RVal → RVal
  | .NA => .NA
  | .negInf => .fin 0
  | .posInf => .posInf
  | .fin v => .fin (Real.exp v)

/-- `cpp_ppower` (lines 118-143): the recycling loop fills the output with
`logcdf_power`, then `if (!lower_tail) p = 1.0 - p` (applied to the
log-space values), then `if (!log_prob) p = exp(p)`. -/
noncomputable def cpp_ppower (x alpha beta : List RDouble)
    (lower_tail log_prob : Bool) : List RVal :=
  let Nmax := max x.length (max alpha.length beta.length)
  let p := (List.range Nmax).map
    (fun i => logcdf_power (rget x i) (rget alpha i) (rget beta i))
  let p := if lower_tail then p else p.map rvalOneMinus
  if log_prob then p else p.map rvalExp

/-! ## Zero-inflated binomial drivers
(src/src/zero-inflated-binomial-distribution.cpp)

The per-element validators `nonneg_or_nan` and `zeroone_or_nan` live in
shared.h, which is not under src/; they are modelled from the spec (§4.2:
a parameter element failing its domain constraint becomes a not-a-number
sentinel).  The drivers' tail-complement and log post-processing loops
(lines 141-147, identities at the default flags) are not modelled: the
verified property concerns the recycling subscripts of the main loop
(lines 138-139). -/

/-- Modelled from the spec: `nonneg_or_nan` of shared.h — negative
elements become the NaN sentinel (§4.2). -/
noncomputable def nonneg_or_nan (v : List RDouble) : List RDouble :=
  v.map (fun a => match a with
    | some x => if x < 0 then none else some x
    | none => none)

/-- Modelled from the spec: `zeroone_or_nan` of shared.h — elements
outside [0,1] become the NaN sentinel (§4.2). -/
noncomputable def zeroone_or_nan (v : List RDouble) : List RDouble :=
  v.map (fun a => match a with
    | some x => if x < 0 ∨ x > 1 then none else some x
    | none => none)

/-- `cpp_pzib` (lines 120-150): recycling loop of line 138-139.  Note the
source subscripts: `pi_n[i % np]`, where `np` is `prob.length()`, not
`npi = pi.length()`. -/
noncomputable def cpp_pzib (pbinom : ℝ → ℝ → ℝ → ℝ)
    (x size prob pi : List RDouble) : List RDouble :=
  let n := x.length
  let npi := pi.length
  let ns := size.length
  let np := prob.length
  let Nmax := max (max (max n npi) ns) np
  let size_n := nonneg_or_nan size
  let prob_n := zeroone_or_nan prob
  let pi_n := zeroone_or_nan pi
  (List.range Nmax).map (fun i =>
    cdf_zib pbinom (x.getD (i % n) none) (size_n.getD (i % ns) none)
      (prob_n.getD (i % np) none) (pi_n.getD (i % np) none))

/-! ## Laplace kernel and driver (src/src/power-distribution.cpp, the
Laplace file sharing that source unit) -/

/-- `pdf_laplace` (lines 217-224): there is no ISNAN guard; the IEEE test
`sigma <= 0` is false when `sigma` is NaN, so the kernel raises one direct
`Rcpp::warning` (counted in the second component) exactly when `sigma` is
a finite value `<= 0`; otherwise `1/(2*sigma) * exp(-|x-mu|/sigma)`, with
NaN operands propagating through the arithmetic. -/
noncomputable def pdf_laplace (x mu sigma : RDouble) : RDouble × ℕ :=
  match sigma with
  | some s =>
    if s ≤ 0 then (none, 1)
    else
      match x, mu with
      | some x, some mu => (some (1 / (2 * s) * Real.exp (-(|x - mu| / s))), 0)
      | _, _ => (none, 0)
  | none => (none, 0)

/-- The offending-sigma test of `pdf_laplace`: a finite `sigma <= 0`. -/
noncomputable def laplaceBadSigma (sigma : RDouble) : Bool :=
  match sigma with
  | some s => decide (s ≤ 0)
  | none => false

/-- `cpp_dlaplace` (lines 260-281): recycling loop; warnings are raised by
the kernel itself, so the call accumulates one warning per offending
element (summed here).  The log post-processing loop (an identity at the
default flag) is not modelled. -/
noncomputable def cpp_dlaplace (x mu sigma : List RDouble) : List RDouble × ℕ :=
  let Nmax := max (max x.length mu.length) sigma.length
  let res := (List.range Nmax).map (fun i =>
    pdf_laplace (rget x i) (rget mu i) (rget sigma i))
  (res.map Prod.fst, (res.map Prod.snd).sum)

/-! ## Rayleigh kernels and driver (src/unnamed/part_001) -/

/-- `pdf_rayleigh` (lines 29-40): NaN propagates flagless (the source
returns `x+sigma`); `sigma <= 0` sets the threaded flag and yields NaN;
negative `x` has zero density (the `!R_FINITE(x)` → 0 disjunct cannot
fire on a finite embedded value); else the Rayleigh density. -/
noncomputable def pdf_rayleigh (x sigma : RDouble) : RDouble × Bool :=
  match x, sigma with
  | some x, some s =>
    if s ≤ 0 then (none, true)
    else if x < 0 then (some 0, false)
    else (some (x / s ^ (2:ℝ) * Real.exp (-(x ^ (2:ℝ)) / (2 * s ^ (2:ℝ)))), false)
  | _, _ => (none, false)

/-- The offending-element test of `pdf_rayleigh`: both inputs non-NaN and
`sigma <= 0` (a NaN input takes priority and is silent). -/
noncomputable def rayleighBad (x sigma : RDouble) : Bool :=
  match x, sigma with
  | some _, some s => decide (s ≤ 0)
  | _, _ => false

/-- `rng_rayleigh` (lines 68-75): NaN or non-positive `sigma` sets the
flag and yields NA; otherwise the inverse transform
`sqrt(-2 sigma^2 log u)` of the uniform draw `u`. -/
noncomputable def rng_rayleigh (u : ℝ) (sigma : RDouble) : RDouble × Bool :=
  match sigma with
  | some s =>
    if s ≤ 0 then (none, true)
    else (some (Real.sqrt (-2 * s ^ (2:ℝ) * Real.log u)), false)
  | none => (none, true)

/-- `cpp_drayleigh` (lines 79-104): recycling loop threading the single
`throw_warning` flag (the disjunction of the per-element flags); one
aggregate warning is raised after the loop iff the flag is set.  The log
post-processing (an identity at the default flag) is not modelled. -/
noncomputable def cpp_drayleigh (x sigma : List RDouble) : List RDouble × ℕ :=
  let Nmax := max x.length sigma.length
  let res := (List.range Nmax).map (fun i =>
    pdf_rayleigh (rget x i) (rget sigma i))
  (res.map Prod.fst, if res.any (fun r => r.2) then 1 else 0)

/-! ## Bernoulli rng kernel (src/src/bernoulli-distribution.cpp) -/

/-- `rng_bernoulli` (lines 67-74): NaN or out-of-[0,1] `p` sets the flag
and yields NA; else the indicator `(u > p) ? 0 : 1` of the uniform draw. -/
noncomputable def rng_bernoulli (u : ℝ) (p : RDouble) : RDouble × Bool :=
  match p with
  | some v =>
    if v < 0 ∨ v > 1 then (none, true)
    else (some (if u > v then 0 else 1), false)
  | none => (none, true)

/-! ## Gamma-Poisson cdf table and driver
(src/src/gamma-poisson-distribution.cpp)

`cdf_gpois_table` (lines 47-87) fills `p_tab[j]` by a forward recurrence
over accumulators `gax`, `xf`, `px`; each accumulator is embedded as the
function of `j` holding its value after the iteration that computes
`p_tab[j]` (`gax` gains `log(j+alpha-1)` from `j = 1` on — the source's
dedicated `x < 2` step adds `log(alpha) = log(1+alpha-1)` — and `xf`
gains `log j` from `j = 2` on).  `R::lgammafn` is the trusted primitive
`lgamma`.  `qa = log(pow(1-p, alpha))` and `lp = log(p)` with
`p = beta/(1+beta)`. -/

/-- The `gax` accumulator: `lgamma(alpha) + sum of log(m+alpha-1)` over
`m = 1..j`. -/
noncomputable def gpois_gax (lgamma : ℝ → ℝ) (alpha : ℝ) : ℕ → ℝ
  | 0 => lgamma alpha
  | j + 1 => gpois_gax lgamma alpha j + Real.log ((j : ℝ) + 1 + alpha - 1)

/-- The `xf` accumulator: `sum of log m` over `m = 2..j` (untouched by the
`j = 1` step of the source). -/
noncomputable def gpois_xf : ℕ → ℝ
  | 0 => 0
  | 1 => 0
  | j + 2 => gpois_xf (j + 1) + Real.log ((j : ℝ) + 2)

/-- The `px` accumulator: `j * lp`. -/
noncomputable def gpois_px (lp : ℝ) : ℕ → ℝ
  | 0 => 0
  | j + 1 => gpois_px lp j + lp

/-- Entry `j` of the cumulative table `p_tab`:
`p_tab[0] = exp(qa)`, and
`p_tab[j] = p_tab[j-1] + exp(gax - (xf + ga) + px + qa)` with the
accumulators at step `j`. -/
noncomputable def cdf_gpois_tab (lgamma : ℝ → ℝ) (alpha beta : ℝ) : ℕ → ℝ
  | 0 => Real.exp (Real.log ((1 - beta / (1 + beta)) ^ alpha))
  | j + 1 =>
    cdf_gpois_tab lgamma alpha beta j +
      Real.exp (gpois_gax lgamma alpha (j + 1) -
        (gpois_xf (j + 1) + lgamma alpha) +
        gpois_px (Real.log (beta / (1 + beta))) (j + 1) +
        Real.log ((1 - beta / (1 + beta)) ^ alpha))

/-- The table as the source returns it: a vector of the entries
`p_tab[0..floor(x)]` (the source first truncates `x = floor(x)` and
allocates `int(x)+1` slots). -/
noncomputable def cdf_gpois_table (lgamma : ℝ → ℝ) (x alpha beta : ℝ) : List ℝ :=
  (List.range (⌊x⌋.toNat + 1)).map (cdf_gpois_tab lgamma alpha beta)

/-- One element of the `cpp_pgpois` loop (lines 145-166), at the default
`lower_tail=true, log_prob=false` flags: NaN in any recycled input → NA
with no warning; `alpha <= 0 || beta <= 0` → NaN with one direct warning
(counted); `x < 0` → 0; else the memoized table lookup
`tmp[static_cast<int>(x)]`, i.e. the table entry at `floor(x)` (the table
entries depend only on `(alpha, beta)`, not on the batch maximum used to
size the vector, so the lookup is `cdf_gpois_tab` at index `⌊x⌋.toNat`;
the `x == R_PosInf` → 1 branch cannot fire on a finite embedded value). -/
noncomputable def pgpois_elt (lgamma : ℝ → ℝ) (x alpha beta : RDouble) :
    RDouble × ℕ :=
  match x, alpha, beta with
  | some x, some a, some b =>
    if a ≤ 0 ∨ b ≤ 0 then (none, 1)
    else if x < 0 then (some 0, 0)
    else (some (cdf_gpois_tab lgamma a b ⌊x⌋.toNat), 0)
  | _, _, _ => (none, 0)

/-! ## Multinomial random generation (src/unnamed/part_000) -/

/-- The sequential conditional-binomial loop of `cpp_rmnom`
(lines 157-165) for one row: for each category but the last,
`p_tmp = prob[j]/p_tot`, draw `rbinom(size_left, p_tmp/sum_p)`, decrement
`size_left` by the draw and `sum_p` by `p_tmp`; the last category receives
the remaining `size_left`.  The ambient `R::rbinom` generator is modelled
as an oracle indexed by the draw number `j`. -/
noncomputable def rmnom_go (rbinom : ℕ → ℝ → ℝ → ℝ) (p_tot : ℝ) :
    ℕ → ℝ → ℝ → List ℝ → List ℝ
  | _, size_left, _, [] => []
  | _, size_left, _, [_] => [size_left]
  | j, size_left, sum_p, pj :: rest =>
    let p_tmp := pj / p_tot
    let draw := rbinom j size_left (p_tmp / sum_p)
    draw :: rmnom_go rbinom p_tot (j + 1) (size_left - draw) (sum_p - p_tmp) rest

/-- One valid row of `cpp_rmnom`: the loop starts with
`size_left = size`, `sum_p = 1.0`, `p_tot = sum of the probability row`
(lines 132-134 and 146). -/
noncomputable def rmnom_sample (rbinom : ℕ → ℝ → ℝ → ℝ) (size : ℝ)
    (prob : List ℝ) : List ℝ :=
  rmnom_go rbinom prob.sum 0 size 1 prob

/-! ## Theorems -/

/-- C6: for shape parameters `a, b > 0` and `x` strictly inside the support
`(0,1)`, the Kumaraswamy quantile applied to the Kumaraswamy cdf returns
`x` exactly (in real semantics the spec's "up to floating-point tolerance"
round trip is an identity), and neither kernel raises a warning flag. -/
theorem kumar_quantile_cdf_roundtrip (x a b : ℝ)
    (hx0 : 0 < x) (hx1 : x < 1) (ha : 0 < a) (hb : 0 < b) :
    invcdf_kumar (cdf_kumar (some x) (some a) (some b)).1 (some a) (some b)
      = (some x, false) ∧ (cdf_kumar (some x) (some a) (some b)).2 = false := by
  have hxa_pos : 0 < x ^ a := Real.rpow_pos_of_pos hx0 a
  have hxa_lt : x ^ a < 1 := Real.rpow_lt_one (le_of_lt hx0) hx1 ha
  have h1xa_pos : 0 < 1 - x ^ a := by linarith
  have h1xa_lt : 1 - x ^ a < 1 := by linarith
  have hb_pos : 0 < (1 - x ^ a) ^ b := Real.rpow_pos_of_pos h1xa_pos b
  have hb_lt : (1 - x ^ a) ^ b < 1 :=
    Real.rpow_lt_one (le_of_lt h1xa_pos) h1xa_lt hb
  have hcdf : cdf_kumar (some x) (some a) (some b)
      = (some (1 - (1 - x ^ a) ^ b), false) := by
    simp only [cdf_kumar]
    rw [if_neg, if_neg, if_neg]
    · exact not_le.mpr hx1
    · exact not_lt.mpr (le_of_lt hx0)
    · push_neg
      exact ⟨ha, hb⟩
  refine ⟨?_, by rw [hcdf]⟩
  rw [hcdf]
  simp only [invcdf_kumar]
  rw [if_neg]
  · have hsub : 1 - (1 - (1 - x ^ a) ^ b) = (1 - x ^ a) ^ b := by ring
    have hroll : ((1 - x ^ a) ^ b) ^ (1/b) = 1 - x ^ a := by
      rw [← Real.rpow_mul (le_of_lt h1xa_pos)]
      rw [mul_one_div, div_self (ne_of_gt hb), Real.rpow_one]
    have hroll2 : (x ^ a) ^ (1/a) = x := by
      rw [← Real.rpow_mul (le_of_lt hx0)]
      rw [mul_one_div, div_self (ne_of_gt ha), Real.rpow_one]
    rw [hsub, hroll]
    have : 1 - (1 - x ^ a) = x ^ a := by ring
    rw [this, hroll2]
  · push_neg
    exact ⟨ha, hb, by linarith, by linarith⟩

/-- C6 witness: the round trip at `x = 1/2`, `a = 2`, `b = 3`. -/
theorem kumar_quantile_cdf_roundtrip_witness :
    invcdf_kumar (cdf_kumar (some (1/2)) (some 2) (some 3)).1 (some 2) (some 3)
      = (some (1/2), false)
      ∧ (cdf_kumar (some (1/2)) (some 2) (some 3)).2 = false :=
  kumar_quantile_cdf_roundtrip (1/2) 2 3 (by norm_num) (by norm_num)
    (by norm_num) (by norm_num)

/-- C9: for a probability `p` strictly inside `(0,1)`, the Tukey-lambda
quantile kernel returns the logistic quantile `log p - log (1-p)` (which
equals `log (p/(1-p))`) at `lambda = 0` via the explicit branch, and the
general formula `(p^l - (1-p)^l)/l` for every nonzero `l`; neither case
flags a warning. -/
theorem tlambda_quantile_formula (p l : ℝ) (hp0 : 0 < p) (hp1 : p < 1) :
    invcdf_tlambda (some p) (some 0)
        = (some (Real.log p - Real.log (1 - p)), false)
      ∧ Real.log p - Real.log (1 - p) = Real.log (p / (1 - p))
      ∧ (l ≠ 0 → invcdf_tlambda (some p) (some l)
        = (some ((p ^ l - (1 - p) ^ l) / l), false)) := by
  have hvalid : ¬¬(0 ≤ p ∧ p ≤ 1) := by
    push_neg
    exact ⟨le_of_lt hp0, le_of_lt hp1⟩
  refine ⟨?_, ?_, ?_⟩
  · simp only [invcdf_tlambda]
    rw [if_neg hvalid]
    simp
  · rw [Real.log_div (ne_of_gt hp0) (by linarith)]
  · intro hl
    simp only [invcdf_tlambda]
    rw [if_neg hvalid, if_neg hl]

/-- C9 witness: the logistic branch and the general formula at
`p = 1/4`, `l = 2`. -/
theorem tlambda_quantile_formula_witness :
    invcdf_tlambda (some (1/4)) (some 0)
        = (some (Real.log (1/4) - Real.log (1 - 1/4)), false)
      ∧ Real.log (1/4) - Real.log (1 - 1/4) = Real.log ((1/4) / (1 - 1/4))
      ∧ ((2:ℝ) ≠ 0 → invcdf_tlambda (some (1/4)) (some 2)
        = (some (((1/4) ^ (2:ℝ) - (1 - 1/4) ^ (2:ℝ)) / 2), false)) :=
  tlambda_quantile_formula (1/4) 2 (by norm_num) (by norm_num)

/-- C5: with valid parameters (`n ≥ 0` integer, `p ∈ [0,1]`, `pi ∈ [0,1]`)
the zero-inflated binomial kernels compute exactly the mixture formulas:
pdf at 0 is `pi + (1-pi)*(1-p)^n`; pdf at a positive integer `x` is
`(1-pi) * dbinom(x,n,p)`; cdf at `x ≥ 0` is `pi + (1-pi) * pbinom(x,n,p)`;
the quantile is 0 for a target `pp < pi` and `qbinom((pp-pi)/(1-pi),n,p)`
for `pp ≥ pi`. -/
theorem zib_kernel_formulas (dbinom pbinom qbinom : ℝ → ℝ → ℝ → ℝ)
    (n p pi x xc pp pp' : ℝ)
    (hn0 : 0 ≤ n) (hnint : isInteger n) (hp : 0 ≤ p ∧ p ≤ 1)
    (hpi : 0 ≤ pi ∧ pi ≤ 1) (hx0 : 0 < x) (hxint : isInteger x)
    (hxc : 0 ≤ xc) (hlo : pp < pi) (hhi : pi ≤ pp') :
    pdf_zib dbinom (some 0) (some n) (some p) (some pi)
        = some (pi + (1 - pi) * (1 - p) ^ n)
      ∧ pdf_zib dbinom (some x) (some n) (some p) (some pi)
        = some ((1 - pi) * dbinom x n p)
      ∧ cdf_zib pbinom (some xc) (some n) (some p) (some pi)
        = some (pi + (1 - pi) * pbinom xc n p)
      ∧ invcdf_zib qbinom (some pp) (some n) (some p) (some pi) = some 0
      ∧ invcdf_zib qbinom (some pp') (some n) (some p) (some pi)
        = some (qbinom ((pp' - pi) / (1 - pi)) n p) := by
  refine ⟨?_, ?_, ?_, ?_, ?_⟩
  · simp only [pdf_zib]
    rw [if_neg]
    · simp
    · push_neg
      refine ⟨le_refl 0, ?_⟩
      show (⌊(0:ℝ)⌋ : ℝ) = 0
      norm_num
  · simp only [pdf_zib]
    rw [if_neg, if_neg (ne_of_gt hx0)]
    push_neg
    exact ⟨le_of_lt hx0, hxint⟩
  · simp only [cdf_zib]
    rw [if_neg (not_lt.mpr hxc)]
  · simp only [invcdf_zib]
    rw [if_pos hlo]
  · simp only [invcdf_zib]
    rw [if_neg (not_lt.mpr hhi)]

/-- C5 witness: the four kernel formulas at `n = 3`, `p = 1/2`,
`pi = 1/4`, pdf query `x = 2`, cdf query `xc = 5/2`, quantile targets
`pp = 1/8 < pi` and `pp' = 1/2 ≥ pi`, with constant primitive stubs. -/
theorem zib_kernel_formulas_witness :
    pdf_zib (fun _ _ _ => 1/3) (some 0) (some 3) (some (1/2)) (some (1/4))
        = some (1/4 + (1 - 1/4) * (1 - 1/2) ^ (3:ℝ))
      ∧ pdf_zib (fun _ _ _ => 1/3) (some 2) (some 3) (some (1/2)) (some (1/4))
        = some ((1 - 1/4) * (1/3))
      ∧ cdf_zib (fun _ _ _ => 2/3) (some (5/2)) (some 3) (some (1/2)) (some (1/4))
        = some (1/4 + (1 - 1/4) * (2/3))
      ∧ invcdf_zib (fun _ _ _ => 2) (some (1/8)) (some 3) (some (1/2)) (some (1/4))
        = some 0
      ∧ invcdf_zib (fun _ _ _ => 2) (some (1/2)) (some 3) (some (1/2)) (some (1/4))
        = some 2 :=
  zib_kernel_formulas (fun _ _ _ => 1/3) (fun _ _ _ => 2/3) (fun _ _ _ => 2)
    3 (1/2) (1/4) 2 (5/2) (1/8) (1/2)
    (by norm_num) (by show (⌊(3:ℝ)⌋ : ℝ) = 3; norm_num)
    (by norm_num) (by norm_num)
    (by norm_num) (by show (⌊(2:ℝ)⌋ : ℝ) = 2; norm_num)
    (by norm_num) (by norm_num) (by norm_num)

/-- C2's failing input: `cpp_ppower(x=1, alpha=2, beta=1,
lower_tail=false, log_prob=false)` returns `exp(1 - log(cdf))
= exp(1 + log 2) = 2e ≈ 5.44`, because the complement `1 - p` is applied
to the log-space value; the lower-tail probability is `1/2`, so the
claimed value `1 - p` would be `1/2`, and the two differ. -/
theorem ppower_upper_tail_log_space_eval :
    cpp_ppower [some 1] [some 2] [some 1] false false
        = [RVal.fin (Real.exp (1 + Real.log 2))]
      ∧ cdf_power (some 1) (some 2) (some 1) = some (1/2)
      ∧ Real.exp (1 + Real.log 2) ≠ 1 - (1/2 : ℝ) := by
  refine ⟨?_, ?_, ?_⟩
  · have h0 : logcdf_power (some 1) (some 2) (some 1) = RVal.fin (-Real.log 2) := by
      simp only [logcdf_power]
      rw [if_neg (by norm_num), if_neg (by norm_num)]
      rw [Real.log_one]
      norm_num
    have h1 : cpp_ppower [some 1] [some 2] [some 1] false false
        = [rvalExp (rvalOneMinus (logcdf_power (some 1) (some 2) (some 1)))] := by
      simp [cpp_ppower, rget, List.range_succ]
    rw [h1, h0]
    simp only [rvalOneMinus, rvalExp, sub_neg_eq_add]
  · simp only [cdf_power]
    rw [if_neg (by norm_num), if_neg (by norm_num)]
    rw [Real.one_rpow, Real.rpow_one]
  · have h1 : (1 + Real.log 2) + 1 ≤ Real.exp (1 + Real.log 2) :=
      Real.add_one_le_exp _
    have h2 : 0 < Real.log 2 := Real.log_pos (by norm_num)
    intro h
    rw [h] at h1
    linarith

/-- C1's failing input, evaluated: `cpp_pzib` with `x=[5]`, `size=[1]`,
`prob=[0.5]` and `pi=[1/4, 3/4]` has output length 2 (recycling is fine),
but output element 1 is computed with `pi[1 % length(prob)] = pi[0] = 1/4`
(value `5/8` under a constant binomial-cdf stub `1/2`), not with
`pi[1 % length(pi)] = pi[1] = 3/4` as the claim requires (which would give
`7/8`). -/
theorem pzib_pi_recycled_by_prob_length_eval :
    cpp_pzib (fun _ _ _ => 1/2) [some 5] [some 1] [some (1/2)]
        [some (1/4), some (3/4)]
      = [some (5/8), some (5/8)]
      ∧ cdf_zib (fun _ _ _ => 1/2) (some 5) (some 1) (some (1/2)) (some (3/4))
      = some (7/8)
      ∧ (some (5/8) : RDouble) ≠ some (7/8) := by
  have hker : cdf_zib (fun _ _ _ => (1/2 : ℝ)) (some 5) (some 1) (some (1/2))
      (some (1/4)) = some (5/8) := by
    simp only [cdf_zib]
    rw [if_neg (by norm_num)]
    norm_num
  refine ⟨?_, ?_, ?_⟩
  · have h1 : cpp_pzib (fun _ _ _ => 1/2) [some 5] [some 1] [some (1/2)]
        [some (1/4), some (3/4)]
        = [cdf_zib (fun _ _ _ => 1/2) (some 5) (some 1) (some (1/2)) (some (1/4)),
           cdf_zib (fun _ _ _ => 1/2) (some 5) (some 1) (some (1/2)) (some (1/4))] := by
      simp only [cpp_pzib, nonneg_or_nan, zeroone_or_nan]
      norm_num [List.range_succ]
    rw [h1, hker]
  · simp only [cdf_zib]
    rw [if_neg (by norm_num)]
    norm_num
  · intro h
    have := Option.some_injective ℝ h
    norm_num at this

/-- Helper: `any` after `map` tests the composed predicate. -/
lemma any_map_comp {α β : Type} (l : List α) (f : α → β) (p : β → Bool) :
    (l.map f).any p = l.any (fun a => p (f a)) := by
  induction l with
  | nil => rfl
  | cons a t ih => simp [ih]

/-- Helper: summing `if q a then 1 else 0` over a list counts the
elements passing `q`. -/
lemma sum_map_ite_len {α : Type} (q : α → Bool) (l : List α) :
    (l.map (fun a => if q a then (1:ℕ) else 0)).sum = (l.filter q).length := by
  induction l with
  | nil => rfl
  | cons a t ih =>
    by_cases h : q a = true
    · simp [h, ih, List.filter_cons, Nat.add_comm]
    · simp [h, ih, List.filter_cons]

/-- Helper: the warning count of one `pdf_laplace` call is 1 exactly on a
finite non-positive sigma. -/
lemma pdf_laplace_warn (x mu sigma : RDouble) :
    (pdf_laplace x mu sigma).2 = if laplaceBadSigma sigma then 1 else 0 := by
  cases sigma with
  | none => rfl
  | some s =>
    by_cases h : s ≤ 0
    · simp [pdf_laplace, laplaceBadSigma, h]
    · cases x <;> cases mu <;> simp [pdf_laplace, laplaceBadSigma, h]

/-- Helper: the flag contribution of one `pdf_rayleigh` call. -/
lemma pdf_rayleigh_flag (x sigma : RDouble) :
    (pdf_rayleigh x sigma).2 = rayleighBad x sigma := by
  cases x with
  | none => cases sigma <;> rfl
  | some xv =>
    cases sigma with
    | none => rfl
    | some s =>
      by_cases h : s ≤ 0
      · simp [pdf_rayleigh, rayleighBad, h]
      · by_cases h2 : xv < 0 <;> simp [pdf_rayleigh, rayleighBad, h, h2]

/-- Helper: a flagged `pdf_rayleigh` element is the NaN sentinel. -/
lemma pdf_rayleigh_bad_val (x sigma : RDouble)
    (h : rayleighBad x sigma = true) : (pdf_rayleigh x sigma).1 = none := by
  cases x with
  | none => simp [rayleighBad] at h
  | some xv =>
    cases sigma with
    | none => simp [rayleighBad] at h
    | some s =>
      have hs : s ≤ 0 := by simpa [rayleighBad] using h
      simp [pdf_rayleigh, hs]

/-- Helper: a warned `pdf_laplace` element is the NaN sentinel. -/
lemma pdf_laplace_bad_val (x mu sigma : RDouble)
    (h : laplaceBadSigma sigma = true) : (pdf_laplace x mu sigma).1 = none := by
  cases sigma with
  | none => simp [laplaceBadSigma] at h
  | some s =>
    have hs : s ≤ 0 := by simpa [laplaceBadSigma] using h
    simp [pdf_laplace, hs]

/-- C3 counterexample: `cpp_dlaplace(x=[1,1], mu=[0], sigma=[-1])` has two
recycled elements with the out-of-domain `sigma = -1`, and the call raises
two warnings (one per affected element), not exactly one. -/
theorem dlaplace_warns_per_element_eval :
    (cpp_dlaplace [some 1, some 1] [some 0] [some (-1)]).2 = 2
      ∧ (cpp_dlaplace [some 1, some 1] [some 0] [some (-1)]).2 ≠ 1 := by
  have h : (cpp_dlaplace [some 1, some 1] [some 0] [some (-1)]).2 = 2 := by
    norm_num [cpp_dlaplace, pdf_laplace, rget, List.range_succ]
  exact ⟨h, by rw [h]; norm_num⟩

/-- C3 as amended: drivers that thread the `throw_warning` flag
(`cpp_drayleigh` here) raise exactly one aggregate warning per call iff
at least one recycled element has a finite out-of-domain parameter with
non-NaN inputs, regardless of how many elements are affected; kernels
that call the warning channel directly (`pdf_laplace`, reached through
`cpp_dlaplace`) raise one warning per affected element; in both cases
the affected output element is the NaN sentinel. -/
theorem warning_aggregation_by_pattern (x mu sigma : List RDouble) :
    (cpp_drayleigh x sigma).2
        = (if (List.range (max x.length sigma.length)).any
            (fun i => rayleighBad (rget x i) (rget sigma i)) then 1 else 0)
      ∧ (cpp_dlaplace x mu sigma).2
        = ((List.range (max (max x.length mu.length) sigma.length)).filter
            (fun i => laplaceBadSigma (rget sigma i))).length
      ∧ (∀ a b : RDouble, rayleighBad a b = true → (pdf_rayleigh a b).1 = none)
      ∧ (∀ a b c : RDouble, laplaceBadSigma c = true →
          (pdf_laplace a b c).1 = none) := by
  refine ⟨?_, ?_, fun a b h => pdf_rayleigh_bad_val a b h,
    fun a b c h => pdf_laplace_bad_val a b c h⟩
  · have hany :
        ((List.range (max x.length sigma.length)).map
          (fun i => pdf_rayleigh (rget x i) (rget sigma i))).any (fun r => r.2)
        = (List.range (max x.length sigma.length)).any
            (fun i => rayleighBad (rget x i) (rget sigma i)) := by
      rw [any_map_comp]
      simp only [pdf_rayleigh_flag]
    simp only [cpp_drayleigh]
    rw [hany]
  · simp only [cpp_dlaplace, List.map_map, Function.comp_def, pdf_laplace_warn]
    exact sum_map_ite_len _ _

/-- C4 counterexample: each of the four rng kernels, given a NaN
parameter, sets the warning flag (the driver then raises "NAs produced"),
so a NaN parameter does contribute to a warning in the rng path. -/
theorem rng_nan_param_flags_eval :
    (rng_tlambda (1/2) none).2 = true
      ∧ (rng_kumar (1/2) none (some 1)).2 = true
      ∧ (rng_rayleigh (1/2) none).2 = true
      ∧ (rng_bernoulli (1/2) none).2 = true := by
  refine ⟨rfl, ?_, rfl, rfl⟩
  simp [rng_kumar]

/-- C4 as amended: in the pdf/cdf/quantile kernels a NaN input propagates
as the missing sentinel with no warning flag and takes priority over any
domain error (the other parameters are unconstrained here), but the rng
kernels treat a NaN parameter as an error: they return the missing
sentinel and set the warning flag. -/
theorem nan_silent_in_dpq_flagged_in_rng (q : RDouble) (u : ℝ)
    (hq : q = none) :
    (∀ l : RDouble, invcdf_tlambda q l = (none, false))
      ∧ (∀ a b : RDouble, cdf_kumar q a b = (none, false))
      ∧ (∀ a b : RDouble, invcdf_kumar q a b = (none, false))
      ∧ (∀ s : RDouble, pdf_rayleigh q s = (none, false))
      ∧ (∀ xv : ℝ, pdf_rayleigh (some xv) q = (none, false))
      ∧ rng_tlambda u q = (none, true)
      ∧ (∀ b : RDouble, rng_kumar u q b = (none, true))
      ∧ rng_rayleigh u q = (none, true)
      ∧ rng_bernoulli u q = (none, true) := by
  subst hq
  refine ⟨?_, ?_, ?_, ?_, ?_, rfl, ?_, rfl, rfl⟩
  · intro l
    cases l <;> rfl
  · intro a b
    cases a <;> cases b <;> rfl
  · intro a b
    cases a <;> cases b <;> rfl
  · intro s
    cases s <;> rfl
  · intro xv
    rfl
  · intro b
    cases b <;> simp [rng_kumar]

/-- C4 witness: the amended statement at the NaN parameter and the
uniform draw `u = 1/2`. -/
theorem nan_silent_in_dpq_flagged_in_rng_witness :
    (∀ l : RDouble, invcdf_tlambda none l = (none, false))
      ∧ (∀ a b : RDouble, cdf_kumar none a b = (none, false))
      ∧ (∀ a b : RDouble, invcdf_kumar none a b = (none, false))
      ∧ (∀ s : RDouble, pdf_rayleigh none s = (none, false))
      ∧ (∀ xv : ℝ, pdf_rayleigh (some xv) none = (none, false))
      ∧ rng_tlambda (1/2) none = (none, true)
      ∧ (∀ b : RDouble, rng_kumar (1/2) none b = (none, true))
      ∧ rng_rayleigh (1/2) none = (none, true)
      ∧ rng_bernoulli (1/2) none = (none, true) :=
  nan_silent_in_dpq_flagged_in_rng none (1/2) rfl

/-- Helper: each forward-recurrence step adds `exp(...) > 0`, so
consecutive table entries are non-decreasing. -/
lemma cdf_gpois_tab_le_succ (lgamma : ℝ → ℝ) (alpha beta : ℝ) (j : ℕ) :
    cdf_gpois_tab lgamma alpha beta j ≤ cdf_gpois_tab lgamma alpha beta (j + 1) := by
  show cdf_gpois_tab lgamma alpha beta j ≤ cdf_gpois_tab lgamma alpha beta j + _
  exact le_add_of_nonneg_right (le_of_lt (Real.exp_pos _))

/-- Helper: the table is monotone in the support index. -/
lemma cdf_gpois_tab_mono (lgamma : ℝ → ℝ) (alpha beta : ℝ) :
    Monotone (cdf_gpois_tab lgamma alpha beta) :=
  monotone_nat_of_le_succ (cdf_gpois_tab_le_succ lgamma alpha beta)

/-- Helper: every table entry is positive (the base entry is an `exp`). -/
lemma cdf_gpois_tab_pos (lgamma : ℝ → ℝ) (alpha beta : ℝ) (j : ℕ) :
    0 < cdf_gpois_tab lgamma alpha beta j := by
  induction j with
  | zero => exact Real.exp_pos _
  | succ n ih => exact lt_of_lt_of_le ih (cdf_gpois_tab_le_succ lgamma alpha beta n)

/-- C7: for any gamma-log primitive and valid parameters
`alpha, beta > 0`, the per-call cumulative table is non-decreasing in the
support index (`p_tab[j] >= p_tab[j-1]` for every step), and consequently
the cdf driver element is non-decreasing in the query `x`. -/
theorem gpois_cdf_monotone (lgamma : ℝ → ℝ) (alpha beta x1 x2 : ℝ)
    (ha : 0 < alpha) (hb : 0 < beta) (h12 : x1 ≤ x2) :
    (∀ j : ℕ, cdf_gpois_tab lgamma alpha beta j
        ≤ cdf_gpois_tab lgamma alpha beta (j + 1))
      ∧ ∃ v1 v2 : ℝ,
        pgpois_elt lgamma (some x1) (some alpha) (some beta) = (some v1, 0)
          ∧ pgpois_elt lgamma (some x2) (some alpha) (some beta) = (some v2, 0)
          ∧ v1 ≤ v2 := by
  have hbad : ¬(alpha ≤ 0 ∨ beta ≤ 0) := by
    push_neg
    exact ⟨ha, hb⟩
  have helt_neg : ∀ y : ℝ, y < 0 →
      pgpois_elt lgamma (some y) (some alpha) (some beta) = (some 0, 0) := by
    intro y hy
    simp only [pgpois_elt]
    rw [if_neg hbad, if_pos hy]
  have helt_pos : ∀ y : ℝ, ¬y < 0 →
      pgpois_elt lgamma (some y) (some alpha) (some beta)
        = (some (cdf_gpois_tab lgamma alpha beta ⌊y⌋.toNat), 0) := by
    intro y hy
    simp only [pgpois_elt]
    rw [if_neg hbad, if_neg hy]
  refine ⟨fun j => cdf_gpois_tab_le_succ lgamma alpha beta j, ?_⟩
  by_cases h2 : x2 < 0
  · have h1 : x1 < 0 := lt_of_le_of_lt h12 h2
    exact ⟨0, 0, helt_neg x1 h1, helt_neg x2 h2, le_refl 0⟩
  · by_cases h1 : x1 < 0
    · exact ⟨0, cdf_gpois_tab lgamma alpha beta ⌊x2⌋.toNat,
        helt_neg x1 h1, helt_pos x2 h2,
        le_of_lt (cdf_gpois_tab_pos lgamma alpha beta _)⟩
    · refine ⟨cdf_gpois_tab lgamma alpha beta ⌊x1⌋.toNat,
        cdf_gpois_tab lgamma alpha beta ⌊x2⌋.toNat,
        helt_pos x1 h1, helt_pos x2 h2, ?_⟩
      exact cdf_gpois_tab_mono lgamma alpha beta
        (Int.toNat_le_toNat (Int.floor_le_floor h12))

/-- C7 witness: the table steps and the driver monotonicity at
`lgamma = const 0`, `alpha = beta = 1`, `x1 = 1/2`, `x2 = 5/2`. -/
theorem gpois_cdf_monotone_witness :
    (∀ j : ℕ, cdf_gpois_tab (fun _ => 0) 1 1 j
        ≤ cdf_gpois_tab (fun _ => 0) 1 1 (j + 1))
      ∧ ∃ v1 v2 : ℝ,
        pgpois_elt (fun _ => 0) (some (1/2)) (some 1) (some 1) = (some v1, 0)
          ∧ pgpois_elt (fun _ => 0) (some (5/2)) (some 1) (some 1) = (some v2, 0)
          ∧ v1 ≤ v2 :=
  gpois_cdf_monotone (fun _ => 0) 1 1 (1/2) (5/2) (by norm_num) (by norm_num)
    (by norm_num)

/-- C10: for valid parameters and a finite query `x ≥ 0` the cdf driver
element indexes the table with the integer truncation of `x`, so the
returned probability is the table entry at `⌊x⌋` and the driver's value
at `x` equals its value at `⌊x⌋` — a step function on each `[m, m+1)`,
with no rejection of non-integer queries. -/
theorem pgpois_step_function (lgamma : ℝ → ℝ) (x alpha beta : ℝ)
    (ha : 0 < alpha) (hb : 0 < beta) (hx : 0 ≤ x) :
    pgpois_elt lgamma (some x) (some alpha) (some beta)
        = (some (cdf_gpois_tab lgamma alpha beta ⌊x⌋.toNat), 0)
      ∧ pgpois_elt lgamma (some x) (some alpha) (some beta)
        = pgpois_elt lgamma (some ((⌊x⌋ : ℤ) : ℝ)) (some alpha) (some beta) := by
  have hbad : ¬(alpha ≤ 0 ∨ beta ≤ 0) := by
    push_neg
    exact ⟨ha, hb⟩
  have hfx : (0:ℝ) ≤ ((⌊x⌋ : ℤ) : ℝ) := by
    exact_mod_cast Int.floor_nonneg.mpr hx
  have h1 : pgpois_elt lgamma (some x) (some alpha) (some beta)
      = (some (cdf_gpois_tab lgamma alpha beta ⌊x⌋.toNat), 0) := by
    simp only [pgpois_elt]
    rw [if_neg hbad, if_neg (not_lt.mpr hx)]
  have h2 : pgpois_elt lgamma (some ((⌊x⌋ : ℤ) : ℝ)) (some alpha) (some beta)
      = (some (cdf_gpois_tab lgamma alpha beta ⌊((⌊x⌋ : ℤ) : ℝ)⌋.toNat), 0) := by
    simp only [pgpois_elt]
    rw [if_neg hbad, if_neg (not_lt.mpr hfx)]
  refine ⟨h1, ?_⟩
  rw [h1, h2, Int.floor_intCast]

/-- C10 witness: the lookup and the step identity at `x = 7/2`,
`alpha = beta = 1`, `lgamma = const 0`. -/
theorem pgpois_step_function_witness :
    pgpois_elt (fun _ => 0) (some (7/2)) (some 1) (some 1)
        = (some (cdf_gpois_tab (fun _ => 0) 1 1 ⌊(7/2 : ℝ)⌋.toNat), 0)
      ∧ pgpois_elt (fun _ => 0) (some (7/2)) (some 1) (some 1)
        = pgpois_elt (fun _ => 0) (some ((⌊(7/2 : ℝ)⌋ : ℤ) : ℝ)) (some 1) (some 1) :=
  pgpois_step_function (fun _ => 0) (7/2) 1 1 (by norm_num) (by norm_num)
    (by norm_num)

/-- Helper: the conditional-binomial loop telescopes — whatever the draws,
the emitted counts plus the final leftover sum to the incoming
`size_left`. -/
lemma rmnom_go_sum (rbinom : ℕ → ℝ → ℝ → ℝ) (p_tot : ℝ) :
    ∀ (prob : List ℝ) (j : ℕ) (size_left sum_p : ℝ), prob ≠ [] →
      (rmnom_go rbinom p_tot j size_left sum_p prob).sum = size_left := by
  intro prob
  induction prob with
  | nil => exact fun j s sp h => absurd rfl h
  | cons pj rest ih =>
    intro j s sp _
    cases rest with
    | nil => simp [rmnom_go]
    | cons pk rs =>
      simp only [rmnom_go, List.sum_cons]
      rw [ih (j + 1) (s - rbinom j s (pj / p_tot / sp)) (sp - pj / p_tot)
        (by simp)]
      ring

/-- C8: for any draws of the external binomial generator and a nonempty
probability row, a sampled multinomial row (valid non-negative integer
size, non-negative weights) sums exactly to the declared size: each
category but the last takes its draw from the remaining size, and the
last category receives the leftover. -/
theorem rmnom_row_sums_to_size (rbinom : ℕ → ℝ → ℝ → ℝ) (size : ℝ)
    (prob : List ℝ) (hne : prob ≠ []) (hsize : 0 ≤ size)
    (hint : isInteger size) (hprob : ∀ p ∈ prob, 0 ≤ p) :
    (rmnom_sample rbinom size prob).sum = size :=
  rmnom_go_sum rbinom prob.sum prob 0 size 1 hne

/-- C8 witness: with the constant draw 1, size 5 and row
`[1/2, 1/4, 1/4]`, the sampled row sums to 5. -/
theorem rmnom_row_sums_to_size_witness :
    (rmnom_sample (fun _ _ _ => 1) 5 [1/2, 1/4, 1/4]).sum = 5 :=
  rmnom_row_sums_to_size (fun _ _ _ => 1) 5 [1/2, 1/4, 1/4] (by simp)
    (by norm_num) (by show (⌊(5:ℝ)⌋ : ℝ) = 5; norm_num)
    (by intro p hp
        simp only [List.mem_cons, List.not_mem_nil, or_false] at hp
        rcases hp with rfl | rfl | rfl <;> norm_num)
